import Mathlib

/-!
Verification of the ralph-setup orchestrator core against its design
specification.  Go strings are modelled as `List Char`; machine integers as
`Int`/`Nat`; the external operating system (process liveness, clock, file
contents) as explicit parameters.  Every definition is a direct translation
of the corresponding Go function, with the source location noted in its doc
comment.
-/

namespace RalphSetup

/-! ## Token containment (src/internal/cli/interface.go) -/

/-- Checks that the pattern `p` is a leading segment of `s`.
Models Go string slicing comparisons such as `text[:len(token)] == token`
used below, and is the building block of the reference substring search. -/
def startsWith : List Char → List Char → Bool
  | _, [] => true
  | [], _ :: _ => false
  | a :: s, b :: p => a == b && startsWith s p

/-- Modelled from the Go standard library `strings.Contains(s, substr)`
(the implementation used by `ContainsCompletionToken`/`ContainsBlockedToken`
in the plain variant of interface.go, src/unnamed/part_001 lines 74-88):
reports whether `substr` occurs as a contiguous substring of `s`. -/
def stringsContains : List Char → List Char → Bool
  | [], substr => startsWith [] substr
  | a :: t, substr => startsWith (a :: t) substr || stringsContains t substr

/-- `contains` from src/internal/cli/interface.go lines 90-97:
`for i := 0; i <= len(s)-len(substr); i++ { if s[i:i+len(substr)] == substr { return true } }`.
With Go's int arithmetic the loop body never runs when `len(substr) > len(s)`
(the bound is negative), hence the guard. -/
def contains (s substr : List Char) : Bool :=
  if substr.length ≤ s.length then
    (List.range (s.length - substr.length + 1)).any fun i =>
      decide ((s.drop i).take substr.length = substr)
  else false

/-- `containsToken` from src/internal/cli/interface.go lines 83-88:
`len(text) >= len(token) && (text == token || (len(text) > len(token) &&
(text[:len(token)] == token || text[len(text)-len(token):] == token ||
contains(text, token))))`. -/
def containsToken (text token : List Char) : Bool :=
  decide (token.length ≤ text.length) &&
    (decide (text = token) ||
      (decide (token.length < text.length) &&
        (decide (text.take token.length = token) ||
          (decide (text.drop (text.length - token.length) = token) ||
            contains text token))))

/-- The COMPLETE marker (`CompletionToken` in src/unnamed/part_001). -/
def completionTokenChars : List Char := "<promise>COMPLETE</promise>".data

/-- The BLOCKED marker (`BlockedToken` in src/unnamed/part_001). -/
def blockedTokenChars : List Char := "<promise>BLOCKED</promise>".data

/-- `ContainsCompletionToken` from src/internal/cli/interface.go lines 73-76. -/
def ContainsCompletionToken (text : List Char) : Bool :=
  containsToken text completionTokenChars

/-- `ContainsBlockedToken` from src/internal/cli/interface.go lines 78-81. -/
def ContainsBlockedToken (text : List Char) : Bool :=
  containsToken text blockedTokenChars


/-! ## Normalized event model (src/internal/cli/interface.go, src/unnamed/part_002) -/

/-- A value stored in a Go `map[string]interface{}` tool-input map: either a
string (the only case the summary extractor inspects) or any other JSON
value. -/
inductive GoVal where
  | vstr : List Char → GoVal
  | vother : GoVal
deriving DecidableEq

/-- `EventType` from src/internal/cli/interface.go lines 38-59. -/
inductive EventType where
  | message
  | toolStart
  | toolEnd
  | turnComplete
  | error
  | unknown
deriving DecidableEq

/-- `NormalizedEvent` from src/internal/cli/interface.go lines 27-36.
The `Raw` field (retained for diagnostics only) is omitted; timestamps are
modelled as integers. -/
structure NormalizedEvent where
  type : EventType
  content : List Char
  toolName : String
  toolID : String
  toolInput : Option (String → Option GoVal)
  isError : Bool
  timestamp : Int

/-- `ClaudeMsg` from src/unnamed/part_002 lines 74-77. -/
structure ClaudeMsg where
  role : String
  content : List Char

/-- `ClaudeTool` from src/unnamed/part_002 lines 80-84. -/
structure ClaudeTool where
  id : String
  name : String
  input : Option (String → Option GoVal)

/-- `ClaudeResult` from src/unnamed/part_002 lines 87-91. -/
structure ClaudeResult where
  toolUseID : String
  content : List Char
  isError : Bool

/-- `ClaudeEvent` from src/unnamed/part_002 lines 63-71: the decoded form of
one streaming JSON line. -/
structure ClaudeEvent where
  type : String
  subtype : String
  message : Option ClaudeMsg
  toolUse : Option ClaudeTool
  toolResult : Option ClaudeResult
  content : List Char
  error : List Char

/-- `(*ClaudeCLI).ParseEvent` from src/unnamed/part_002 lines 93-139, after a
successful `json.Unmarshal` produced `e`.  `now` models `time.Now()`; each
branch of the Go switch sets the normalized type and copies the fields the
source copies, leaving the rest at their zero values. -/
def parseEventClaude (now : Int) (e : ClaudeEvent) : NormalizedEvent :=
  let base : NormalizedEvent :=
    { type := .unknown, content := [], toolName := "", toolID := "",
      toolInput := none, isError := false, timestamp := now }
  match e.type with
  | "assistant" =>
    { base with
      type := .message,
      content := match e.message with | some m => m.content | none => [] }
  | "tool_use" =>
    match e.toolUse with
    | some tu =>
      { base with type := .toolStart, toolID := tu.id, toolName := tu.name,
                  toolInput := tu.input }
    | none => { base with type := .toolStart }
  | "tool_result" =>
    match e.toolResult with
    | some tr =>
      { base with type := .toolEnd, toolID := tr.toolUseID,
                  content := tr.content, isError := tr.isError }
    | none => { base with type := .toolEnd }
  | "error" =>
    { base with type := .error, content := e.error, isError := true }
  | _ =>
    { base with type := .unknown, content := e.content }

/-! ## Orchestrator data model (src/internal/orchestrator/types.go) -/

/-- `SubagentStatus` from types.go lines 51-58. -/
inductive SubagentStatus where
  | pending
  | running
  | complete
  | error
deriving DecidableEq

/-- `SessionStatus` from types.go lines 74-82. -/
inductive SessionStatus where
  | running
  | completed
  | interrupted
  | failed
  | recovered
deriving DecidableEq

/-- `IterationStatus` from types.go lines 103-110. -/
inductive IterationStatus where
  | complete
  | blocked
  | failed
  | timeout
deriving DecidableEq

/-- `SubagentTrace` from types.go lines 40-49.  Times are integers; `EndedAt`
is optional exactly as the `*time.Time` field is. -/
structure SubagentTrace where
  id : String
  type : String
  input : List Char
  status : SubagentStatus
  output : List Char
  startedAt : Int
  endedAt : Option Int
  duration : Int
deriving DecidableEq

/-- `truncate` from src/internal/orchestrator/orchestrator.go lines 602-607:
`if len(s) <= maxLen { return s }; return s[:maxLen-3] + "..."`.
(Go indexes bytes; characters stand in for bytes here.) -/
def truncate (s : List Char) (maxLen : Nat) : List Char :=
  if s.length ≤ maxLen then s else s.take (maxLen - 3) ++ "...".data

/-- `extractToolInputSummary` from orchestrator.go lines 467-484.  A `nil`
map is `none`; a key whose value is present but not a string fails the Go
type assertion and falls through, like an absent key. -/
def extractToolInputSummary (input : Option (String → Option GoVal)) : List Char :=
  match input with
  | none => []
  | some m =>
    match m "command" with
    | some (GoVal.vstr cmd) => truncate cmd 100
    | _ =>
      match m "file_path" with
      | some (GoVal.vstr path) => path
      | _ =>
        match m "prompt" with
        | some (GoVal.vstr p) => truncate p 100
        | _ => []

/-- `(*Orchestrator).completeSubagent` from orchestrator.go lines 446-465:
linear scan for the first trace whose ID matches; if found, set end time,
duration, truncated output and final status, and stop; otherwise leave the
collection unchanged.  `now` models `time.Now()`. -/
def completeSubagent (now : Int) (toolID : String) (output : List Char)
    (isError : Bool) : List SubagentTrace → List SubagentTrace
  | [] => []
  | t :: ts =>
    if t.id = toolID then
      { t with
        endedAt := some now,
        duration := now - t.startedAt,
        output := truncate output 200,
        status := if isError then .error else .complete } :: ts
    else t :: completeSubagent now toolID output isError ts

/-- The effect of `(*Orchestrator).processNormalizedEvent` (orchestrator.go
lines 421-444) on `o.currentSubagents`: a tool_start appends a fresh running
trace, a tool_end routes to `completeSubagent`, and message/error events only
emit output messages, leaving the traces unchanged.  `now` models the
`time.Now()` read inside `completeSubagent`. -/
def processEventTraces (now : Int) (traces : List SubagentTrace)
    (e : NormalizedEvent) : List SubagentTrace :=
  match e.type with
  | .toolStart =>
    traces ++ [{ id := e.toolID, type := e.toolName, status := .running,
                 startedAt := e.timestamp, endedAt := none, duration := 0,
                 input := extractToolInputSummary e.toolInput, output := [] }]
  | .toolEnd => completeSubagent now e.toolID e.content e.isError traces
  | _ => traces

/-- The trace collection reached after processing a sequence of normalized
events from the empty per-iteration state (`o.currentSubagents = nil`,
orchestrator.go line 314), each paired with the wall-clock time at which it
was processed. -/
def applyEvents (evs : List (Int × NormalizedEvent)) : List SubagentTrace :=
  evs.foldl (fun trs p => processEventTraces p.1 trs p.2) []

/-! ## Stream scanning and iteration classification
(src/internal/orchestrator/orchestrator.go, `runIteration`, lines 347-418) -/

/-- `OutputMsg` from orchestrator.go lines 80-83. -/
structure OutputMsg where
  content : List Char
  raw : Bool

/-- One line read from the child's standard output.  `parsed e` stands for a
line on which `json.Unmarshal` (inside `ParseEvent`, src/unnamed/part_002)
succeeded and decoded the event `e`; `raw s` stands for a line of text on
which it failed, so `ParseEvent` returned an error.  (`ParseEvent` never
returns a nil event without an error, so the orchestrator's
`err == nil && normalizedEvent != nil` test is exactly this split.) -/
inductive StdoutLine where
  | parsed : ClaudeEvent → StdoutLine
  | raw : List Char → StdoutLine

/-- The two token-detection flags of `runIteration`
(orchestrator.go lines 348-349). -/
structure ScanFlags where
  completionDetected : Bool
  blockedDetected : Bool
deriving DecidableEq

/-- The effect of one stdout line on the detection flags, from the stdout
reader of `runIteration` (orchestrator.go lines 361-391): a successfully
parsed event is scanned only when its normalized type is message, and then
only its content; an unparsed line is scanned as raw text.  The timestamp
argument of `ParseEvent` (`time.Now()`) plays no role in scanning, so it is
fixed to 0. -/
def processStdoutLine (f : ScanFlags) (line : StdoutLine) : ScanFlags :=
  match line with
  | .parsed e =>
    let ne := parseEventClaude 0 e
    if ne.type = .message then
      { completionDetected := f.completionDetected || ContainsCompletionToken ne.content,
        blockedDetected := f.blockedDetected || ContainsBlockedToken ne.content }
    else f
  | .raw s =>
    { completionDetected := f.completionDetected || ContainsCompletionToken s,
      blockedDetected := f.blockedDetected || ContainsBlockedToken s }

/-- The detection flags after the stdout reader has drained the whole stream,
starting from `completionDetected = false`, `blockedDetected = false`. -/
def scanStdout (lines : List StdoutLine) : ScanFlags :=
  lines.foldl processStdoutLine ⟨false, false⟩

/-- The final classification of `runIteration` (orchestrator.go lines
410-416): complete if the COMPLETE marker was detected, else blocked if the
BLOCKED marker was, else failed. -/
def classifyIteration (f : ScanFlags) : IterationStatus :=
  if f.completionDetected then .complete
  else if f.blockedDetected then .blocked
  else .failed

/-- The iteration status produced by `runIteration` from the two drained
streams.  The stderr reader (orchestrator.go lines 394-402) only logs and
surfaces its lines; it never touches the detection flags, so the stderr
stream does not enter the classification. -/
def runIterationStatus (stdoutLines : List StdoutLine)
    (stderrLines : List (List Char)) : IterationStatus :=
  classifyIteration (scanStdout stdoutLines)

/-- The log-file entry the stderr reader writes for one stderr line
(orchestrator.go line 399): `logWriter.WriteString("[stderr] " + line + "\n")`. -/
def stderrLogEntry (line : List Char) : List Char :=
  "[stderr] ".data ++ line ++ ['\n']

/-- The outward message the stderr reader emits for one stderr line
(orchestrator.go line 400): `OutputMsg{Content: "[stderr] " + line, Raw: true}`. -/
def stderrOutput (line : List Char) : OutputMsg :=
  { content := "[stderr] ".data ++ line, raw := true }

/-- Whether one stdout line makes the stdout reader set
`completionDetected`: the COMPLETE marker in the normalized content of a
parsed message event, or anywhere in a raw unparsed line. -/
def lineHasCompletion : StdoutLine → Bool
  | .parsed e =>
    (parseEventClaude 0 e).type == .message &&
      ContainsCompletionToken (parseEventClaude 0 e).content
  | .raw s => ContainsCompletionToken s

/-- Whether one stdout line makes the stdout reader set `blockedDetected`. -/
def lineHasBlocked : StdoutLine → Bool
  | .parsed e =>
    (parseEventClaude 0 e).type == .message &&
      ContainsBlockedToken (parseEventClaude 0 e).content
  | .raw s => ContainsBlockedToken s

/-! ## Task selection (`checkTasks`, orchestrator.go lines 517-546) -/

/-- Result triple of `checkTasks`:
`(shouldContinue bool, currentTask string, remaining int)`. -/
structure TaskCheckResult where
  shouldContinue : Bool
  currentTask : List Char
  remaining : Nat
deriving DecidableEq

/-- Whether a line matches the regular expression `^- \[ \] (.+)$`
(orchestrator.go line 527): the line is `- [ ] ` followed by at least one
character.  Lines come pre-split on newlines, so `.` matches every
remaining character. -/
def incompleteMatch (line : List Char) : Bool :=
  startsWith line "- [ ] ".data && decide (6 < line.length)

/-- The capture group of `^- \[ \] (.+)$`: everything after the 6-character
checkbox marker. -/
def taskOf (line : List Char) : List Char := line.drop 6

/-- Whether a line matches the regular expression `🤖`
(orchestrator.go line 528): it contains the robot glyph (one rune). -/
def containsBot (line : List Char) : Bool := line.any (· == '🤖')

/-- Models `strings.ReplaceAll(task, "🤖", "")` (orchestrator.go line 536):
replacing every occurrence of a single character by the empty string removes
every occurrence of that character. -/
def removeAll (c : Char) (l : List Char) : List Char := l.filter (· != c)

/-- Models `strings.TrimSpace` (orchestrator.go line 545): drop leading and
trailing white space. -/
def trimSpace (l : List Char) : List Char :=
  ((l.dropWhile Char.isWhitespace).reverse.dropWhile Char.isWhitespace).reverse

/-- The per-line accumulation of `checkTasks` (orchestrator.go lines
530-539): collect, in document order, the cleaned text of every line that
matches the incomplete-checkbox pattern and contains the robot glyph. -/
def aiTasks (lines : List (List Char)) : List (List Char) :=
  lines.filterMap fun line =>
    if incompleteMatch line && containsBot line then
      some (removeAll '🤖' (taskOf line))
    else none

/-- `checkTasks` on the pre-split lines of an existing PRD.md
(orchestrator.go lines 524-545): no collected task means stop; otherwise
continue with the first collected task, trimmed, and the collected count. -/
def checkTasksLines (lines : List (List Char)) : TaskCheckResult :=
  match aiTasks lines with
  | [] => ⟨false, [], 0⟩
  | t :: rest => ⟨true, trimSpace t, (t :: rest).length⟩

/-- `(*Orchestrator).checkTasks` (orchestrator.go lines 517-546).  `none`
models a failed `os.ReadFile("PRD.md")`: the bootstrap task is synthesized.
Otherwise the content is split on newlines and scanned. -/
def checkTasks (prd : Option (List Char)) : TaskCheckResult :=
  match prd with
  | none => ⟨true, "Create PRD.md with task list".data, 0⟩
  | some content => checkTasksLines (content.splitOn '\n')

/-! ## The orchestration loop (`runLoop`, orchestrator.go lines 235-303) -/

/-- The loop-visible state of `runLoop`: the session fields it mutates, the
`consecutiveFailures` counter, whether the lock file is still on disk, and —
as ghost instrumentation — the classifications of the `runIteration` calls
made so far, most recent first. -/
structure LoopState where
  iteration : Nat
  status : SessionStatus
  tasksCompleted : Nat
  currentTask : List Char
  consecutiveFailures : Nat
  lockHeld : Bool
  history : List IterationStatus
deriving DecidableEq

/-- The initial state of `runLoop`: a fresh session at iteration 0 with the
lock file in place (written by `initSession`). -/
def initialLoopState : LoopState :=
  { iteration := 0, status := .running, tasksCompleted := 0, currentTask := [],
    consecutiveFailures := 0, lockHeld := true, history := [] }

/-- One pass of the `for` body of `runLoop` (orchestrator.go lines 250-298),
given the PRD.md contents read at each iteration and the stdout/stderr
streams each `runIteration` call drains.  Returns the new state and whether
the loop returns (the deferred `os.Remove` releases the lock on every return
path).  The timeout case of the Go switch matches no arm and falls through
with nothing reset — it is unreachable because `runIterationStatus` never
yields timeout. -/
def loopIterate (prdAt : Nat → Option (List Char))
    (outs : Nat → List StdoutLine) (errs : Nat → List (List Char))
    (st : LoopState) : LoopState × Bool :=
  let it := st.iteration + 1
  let check := checkTasks (prdAt it)
  if check.shouldContinue then
    let r := runIterationStatus (outs it) (errs it)
    let st2 : LoopState :=
      { st with iteration := it, currentTask := check.currentTask,
                history := r :: st.history }
    match r with
    | .complete =>
      ({ st2 with tasksCompleted := st2.tasksCompleted + 1,
                  consecutiveFailures := 0 }, false)
    | .blocked => ({ st2 with consecutiveFailures := 0 }, false)
    | .failed =>
      if st2.consecutiveFailures + 1 ≥ 3 then
        ({ st2 with consecutiveFailures := st2.consecutiveFailures + 1,
                    status := .failed, lockHeld := false }, true)
      else ({ st2 with consecutiveFailures := st2.consecutiveFailures + 1 }, false)
    | .timeout => (st2, false)
  else ({ st with iteration := it, status := .completed, lockHeld := false }, true)

/-- The `for` loop of `runLoop`.  The guard `session.Iteration < MaxIterations`
is carried as fuel: starting from iteration 0 with fuel `MaxIterations`, fuel
is exactly `MaxIterations - iteration`, so fuel 0 is the natural loop exit
(session completed, lock removed by the deferred cleanup). -/
def runLoopAux (prdAt : Nat → Option (List Char))
    (outs : Nat → List StdoutLine) (errs : Nat → List (List Char)) :
    Nat → LoopState → LoopState
  | 0, st => { st with status := .completed, lockHeld := false }
  | fuel + 1, st =>
    let s := loopIterate prdAt outs errs st
    if s.2 then s.1 else runLoopAux prdAt outs errs fuel s.1

/-- `(*Orchestrator).runLoop` (orchestrator.go lines 235-303) under a given
maximum iteration count, PRD.md contents per iteration, and per-iteration
child streams.  External stop requests are not modelled. -/
def runLoop (maxIterations : Nat) (prdAt : Nat → Option (List Char))
    (outs : Nat → List StdoutLine) (errs : Nat → List (List Char)) : LoopState :=
  runLoopAux prdAt outs errs maxIterations initialLoopState

/-! ## Session initialization and the lock file
(`initSession`, orchestrator.go lines 175-222) -/

/-- `LockRecord`: the JSON object `{pid, session_id, timestamp}` written to
the lock file (orchestrator.go lines 211-216).  `initSession` decodes only
the pid; an unreadable or unparseable lock leaves the zero value `pid = 0`. -/
structure LockRecord where
  pid : Int
  sessionId : String
  timestamp : Int
deriving DecidableEq

/-- `Session` from types.go lines 61-72 (the subagent-trace list, always
empty at creation, is omitted). -/
structure Session where
  id : String
  startedAt : Int
  updatedAt : Int
  status : SessionStatus
  iteration : Nat
  tasksCompleted : Nat
  currentTask : List Char
  workingDir : String
  pid : Int
deriving DecidableEq

/-- The on-disk state `initSession` reads and writes: the lock file and the
session file. -/
structure InitState where
  lockFile : Option LockRecord
  sessionFile : Option Session
deriving DecidableEq

/-- Models the Go call `process.Signal(os.Signal(nil))` on Unix
(orchestrator.go line 190).  `os.Signal(nil)` is a nil interface value, and
`os.(*Process).Signal` begins with the type assertion
`s, ok := sig.(syscall.Signal)`; a nil interface fails it, so the call
returns the error "os: unsupported signal type" without ever probing the
process — regardless of whether the process named by `pid` is alive.  (A
liveness probe by "signal 0", as the adjacent comment in the source intends,
would be `syscall.Signal(0)`.)  `alive` is the true liveness of each pid;
the return value is the error, `none` meaning `err == nil`. -/
def signalNilResult (alive : Int → Bool) (pid : Int) : Option String :=
  some "os: unsupported signal type"

/-- The fall-through tail of `initSession` (orchestrator.go lines 195-221):
remove any stale lock, create a fresh session, write the new lock record
`{pid, session_id, timestamp}`, and persist the session.  The net effect on
the two files is that both hold the fresh records. -/
def initSessionProceed (selfPid : Int) (newId : String) (workDir : String)
    (now : Int) : Option String × InitState :=
  let session : Session :=
    { id := newId, startedAt := now, updatedAt := now, status := .running,
      iteration := 0, tasksCompleted := 0, currentTask := [],
      workingDir := workDir, pid := selfPid }
  (none, { lockFile := some ⟨selfPid, newId, now⟩, sessionFile := some session })

/-- `(*Orchestrator).initSession` (orchestrator.go lines 175-222).  If a lock
file exists and decodes to a positive pid, the code looks the process up
(`os.FindProcess`, which always succeeds on Unix) and tests
`process.Signal(os.Signal(nil)) == nil`; only then would it refuse with the
already-running error and leave both files untouched.  Otherwise it falls
through: the lock is removed and rewritten and a fresh session is written.
The first component is the returned error, the second the resulting files. -/
def initSession (alive : Int → Bool) (selfPid : Int) (newId : String)
    (workDir : String) (now : Int) (st : InitState) : Option String × InitState :=
  match st.lockFile with
  | some lock =>
    if 0 < lock.pid then
      match signalNilResult alive lock.pid with
      | none => (some "another ralph-loop is running", st)
      | some _ => initSessionProceed selfPid newId workDir now
    else initSessionProceed selfPid newId workDir now
  | none => initSessionProceed selfPid newId workDir now

/-! ## Specification-side helper notions used by the theorems -/

/-- A PRD.md line that contributes a task in `checkTasks`: it matches the
incomplete-checkbox pattern and carries the robot glyph. -/
def agentLine (line : List Char) : Bool := incompleteMatch line && containsBot line

/-- The cleanup `checkTasks` applies to a collected task line before storing
it: strip the checkbox marker and remove the robot glyph. -/
def cleanTask (line : List Char) : List Char := removeAll '🤖' (taskOf line)

/-- The number of failed classifications at the head of a most-recent-first
iteration history: the value `consecutiveFailures` tracks. -/
def leadFails : List IterationStatus → Nat
  | [] => 0
  | r :: rest => if r = .failed then leadFails rest + 1 else 0

/-- A history (most recent first) containing no three consecutive failed
classifications. -/
def NoTriple (h : List IterationStatus) : Prop :=
  ∀ t u, h ≠ t ++ IterationStatus.failed :: .failed :: .failed :: u

/-- The C6 trace invariant: end time is set exactly when the status is
complete or error. -/
def traceInv (t : SubagentTrace) : Prop :=
  t.endedAt.isSome = true ↔ (t.status = .complete ∨ t.status = .error)

/-! ### Substring search lemmas -/

theorem startsWith_iff (s p : List Char) :
    startsWith s p = true ↔ ∃ u, s = p ++ u := by
  induction p generalizing s with
  | nil =>
    simp [startsWith]
  | cons b p ih =>
    cases s with
    | nil =>
      simp [startsWith]
    | cons a s =>
      simp only [startsWith, Bool.and_eq_true, beq_iff_eq, ih, List.cons_append,
        List.cons.injEq]
      constructor
      · rintro ⟨rfl, u, rfl⟩; exact ⟨u, rfl, rfl⟩
      · rintro ⟨u, rfl, rfl⟩; exact ⟨rfl, u, rfl⟩

theorem stringsContains_iff (s substr : List Char) :
    stringsContains s substr = true ↔ ∃ t u, s = t ++ substr ++ u := by
  induction s with
  | nil =>
    simp only [stringsContains, startsWith_iff]
    constructor
    · rintro ⟨u, h⟩
      exact ⟨[], u, by simpa using h⟩
    · rintro ⟨t, u, h⟩
      have h' : t = [] ∧ substr = [] ∧ u = [] := by
        simpa [List.append_assoc] using h.symm
      rcases h' with ⟨rfl, rfl, rfl⟩
      exact ⟨[], rfl⟩
  | cons a s ih =>
    simp only [stringsContains, Bool.or_eq_true, startsWith_iff, ih]
    constructor
    · rintro (⟨u, h⟩ | ⟨t, u, rfl⟩)
      · exact ⟨[], u, by simpa using h⟩
      · exact ⟨a :: t, u, by simp⟩
    · rintro ⟨t, u, h⟩
      cases t with
      | nil =>
        exact Or.inl ⟨u, by simpa using h⟩
      | cons x t =>
        right
        have h' : a = x ∧ s = t ++ substr ++ u := by
          simpa [List.cons_append] using h
        exact ⟨t, u, h'.2⟩

theorem contains_iff (s substr : List Char) :
    contains s substr = true ↔ ∃ t u, s = t ++ substr ++ u := by
  constructor
  · intro h
    unfold contains at h
    by_cases hlen : substr.length ≤ s.length
    · rw [if_pos hlen] at h
      rcases List.any_eq_true.mp h with ⟨i, hi, hslice⟩
      rw [List.mem_range] at hi
      have hslice' : (s.drop i).take substr.length = substr := of_decide_eq_true hslice
      refine ⟨s.take i, s.drop (i + substr.length), ?_⟩
      have h1 : s = s.take i ++ s.drop i := (List.take_append_drop i s).symm
      have h2 : s.drop i = substr ++ s.drop (i + substr.length) := by
        conv_lhs => rw [← List.take_append_drop substr.length (s.drop i)]
        rw [hslice', List.drop_drop]
      rw [List.append_assoc]
      rw [← h2]
      exact h1
    · rw [if_neg hlen] at h
      exact absurd h (by simp)
  · rintro ⟨t, u, rfl⟩
    have hlen : substr.length ≤ (t ++ substr ++ u).length := by
      simp [List.length_append]; omega
    unfold contains
    rw [if_pos hlen]
    refine List.any_eq_true.mpr ⟨t.length, ?_, ?_⟩
    · rw [List.mem_range]
      simp [List.length_append]
      omega
    · refine decide_eq_true ?_
      rw [List.append_assoc, List.drop_left, List.take_left]

theorem containsToken_iff (text token : List Char) :
    containsToken text token = true ↔ ∃ t u, text = t ++ token ++ u := by
  unfold containsToken
  simp only [Bool.and_eq_true, Bool.or_eq_true, decide_eq_true_eq]
  constructor
  · rintro ⟨-, (rfl | ⟨-, (htake | hdrop | hcont)⟩)⟩
    · exact ⟨[], [], by simp⟩
    · refine ⟨[], text.drop token.length, ?_⟩
      conv_lhs => rw [← List.take_append_drop token.length text]
      rw [htake]
      simp
    · refine ⟨text.take (text.length - token.length), [], ?_⟩
      conv_lhs => rw [← List.take_append_drop (text.length - token.length) text]
      rw [hdrop]
      simp
    · exact (contains_iff text token).mp hcont
  · rintro ⟨t, u, rfl⟩
    have hlen : token.length ≤ (t ++ token ++ u).length := by
      simp [List.length_append]; omega
    refine ⟨hlen, ?_⟩
    by_cases heq : (t ++ token ++ u : List Char) = token
    · exact Or.inl heq
    · right
      have hlt : token.length < (t ++ token ++ u).length := by
        rcases lt_or_eq_of_le hlen with h | h
        · exact h
        · exfalso
          apply heq
          have ht : t.length = 0 ∧ u.length = 0 := by
            simp [List.length_append] at h
            omega
          rcases ht with ⟨ht, hu⟩
          rw [List.length_eq_zero.mp ht, List.length_eq_zero.mp hu]
          simp
      exact ⟨hlt, Or.inr (Or.inr ((contains_iff _ token).mpr ⟨t, u, rfl⟩))⟩

/-- C8: the token-containment function `containsToken` in
src/internal/cli/interface.go is extensionally equal to the plain
`strings.Contains`-based implementation used by
`ContainsCompletionToken`/`ContainsBlockedToken` in src/unnamed/part_001. -/
theorem containsToken_eq_stringsContains (text token : List Char) :
    containsToken text token = stringsContains text token := by
  cases hb : stringsContains text token
  · cases hc : containsToken text token
    · rfl
    · exact absurd ((stringsContains_iff text token).mpr
        ((containsToken_iff text token).mp hc)) (by simp [hb])
  · exact (containsToken_iff text token).mpr ((stringsContains_iff text token).mp hb)

/-! ### Stream scanning lemmas and claims C1, C5, C10 -/

theorem processStdoutLine_eq (f : ScanFlags) (l : StdoutLine) :
    processStdoutLine f l =
      ⟨f.completionDetected || lineHasCompletion l,
        f.blockedDetected || lineHasBlocked l⟩ := by
  cases l with
  | parsed e =>
    by_cases h : (parseEventClaude 0 e).type = .message
    · simp [processStdoutLine, lineHasCompletion, lineHasBlocked, h]
    · simp [processStdoutLine, lineHasCompletion, lineHasBlocked, h,
        beq_eq_false_iff_ne.mpr h]
  | raw s => rfl

theorem foldl_processStdoutLine (lines : List StdoutLine) (f : ScanFlags) :
    lines.foldl processStdoutLine f =
      ⟨f.completionDetected || lines.any lineHasCompletion,
        f.blockedDetected || lines.any lineHasBlocked⟩ := by
  induction lines generalizing f with
  | nil => simp
  | cons l ls ih =>
    rw [List.foldl_cons, processStdoutLine_eq, ih]
    simp [Bool.or_assoc]

/-- C1: during an iteration, if the COMPLETE marker appears in any scanned
output — the normalized content of a parsed message event or a raw unparsed
line — the iteration is classified complete, even when the BLOCKED marker
also appears; if only the BLOCKED marker appears it is blocked; if neither
appears it is failed. -/
theorem runIteration_classification (outLines : List StdoutLine)
    (errLines : List (List Char)) :
    runIterationStatus outLines errLines =
      if outLines.any lineHasCompletion then .complete
      else if outLines.any lineHasBlocked then .blocked
      else .failed := by
  unfold runIterationStatus scanStdout
  rw [foldl_processStdoutLine]
  simp [classifyIteration]

/-- C5 counterexample: an iteration whose only occurrence of the COMPLETE
marker is on the standard-error stream is classified failed — the stderr
reader does not scan its lines for tokens, so the detection flag is not set
and the claimed classification (complete) does not occur. -/
theorem stderr_token_ignored_cex :
    runIterationStatus [] ["<promise>COMPLETE</promise>".data] = .failed ∧
      runIterationStatus [] ["<promise>COMPLETE</promise>".data] ≠ .complete := by
  exact ⟨rfl, by decide⟩

/-- C5 (amended): every line read from the child's standard-error stream is
prefixed with "[stderr] ", appended to the iteration log, and surfaced as a
raw diagnostic message, but it is NOT scanned for the COMPLETE/BLOCKED
tokens and plays no role in classification: the iteration status is a
function of the stdout stream alone. -/
theorem stderr_prefixed_surfaced_not_scanned :
    (∀ (outLines : List StdoutLine) (errLines errLines' : List (List Char)),
        runIterationStatus outLines errLines = runIterationStatus outLines errLines') ∧
    (∀ line, stderrLogEntry line = "[stderr] ".data ++ line ++ ['\n']) ∧
    (∀ line, stderrOutput line = { content := "[stderr] ".data ++ line, raw := true }) :=
  ⟨fun _ _ _ => rfl, fun _ => rfl, fun _ => rfl⟩

/-- C10: a stdout line that parses successfully into a normalized event
whose type is not message is never scanned for tokens: processing it leaves
both detection flags unchanged, so an iteration whose stdout consists only
of such lines — even if a completion token sits inside one of them, e.g. in
a tool_end output or an unknown-typed valid-JSON event — is classified
failed. -/
theorem parsed_nonmessage_never_scanned :
    (∀ (f : ScanFlags) (e : ClaudeEvent), (parseEventClaude 0 e).type ≠ .message →
        processStdoutLine f (.parsed e) = f) ∧
    (∀ (outLines : List StdoutLine) (errLines : List (List Char)),
        (∀ l ∈ outLines, ∃ e, l = StdoutLine.parsed e ∧
            (parseEventClaude 0 e).type ≠ .message) →
        runIterationStatus outLines errLines = .failed) := by
  constructor
  · intro f e h
    simp [processStdoutLine, h]
  · intro outLines errLines h
    have hC : outLines.any lineHasCompletion = false := by
      rw [List.any_eq_false]
      intro l hl
      rcases h l hl with ⟨e, rfl, hne⟩
      simp [lineHasCompletion, hne]
    have hB : outLines.any lineHasBlocked = false := by
      rw [List.any_eq_false]
      intro l hl
      rcases h l hl with ⟨e, rfl, hne⟩
      simp [lineHasBlocked, hne]
    unfold runIterationStatus scanStdout
    rw [foldl_processStdoutLine]
    simp [classifyIteration, hC, hB]

/-- Witness for C10: a concrete tool_result line whose output carries the
COMPLETE token verbatim sets neither flag, and the iteration is failed. -/
theorem parsed_nonmessage_never_scanned_witness :
    ContainsCompletionToken "<promise>COMPLETE</promise>".data = true ∧
    runIterationStatus
        [StdoutLine.parsed
          { type := "tool_result", subtype := "", message := none, toolUse := none,
            toolResult := some
              { toolUseID := "t1",
                content := "<promise>COMPLETE</promise>".data, isError := false },
            content := [], error := [] }] [] = .failed := by
  constructor
  · decide
  · refine parsed_nonmessage_never_scanned.2 _ [] ?_
    intro l hl
    rw [List.mem_singleton] at hl
    subst hl
    exact ⟨_, rfl, by decide⟩

/-! ### Subagent tracer lemmas and claims C6, C7 -/

theorem truncate_length_le (s : List Char) (n : Nat) (h : 3 ≤ n) :
    (truncate s n).length ≤ n := by
  unfold truncate
  split
  case isTrue hle => exact hle
  case isFalse hgt =>
    push_neg at hgt
    simp only [List.length_append, List.length_take]
    have : "...".data.length = 3 := by decide
    rw [this]
    omega

theorem completeSubagent_inv (now : Int) (toolID : String) (out : List Char)
    (isErr : Bool) (ts : List SubagentTrace) :
    (∀ t ∈ ts, traceInv t) →
    ∀ t ∈ completeSubagent now toolID out isErr ts, traceInv t := by
  induction ts with
  | nil => intro h t ht; simp [completeSubagent] at ht
  | cons a ts ih =>
    intro h t ht
    rw [completeSubagent] at ht
    split at ht
    · rcases List.mem_cons.mp ht with rfl | hmem
      · unfold traceInv
        constructor
        · intro _
          split <;> simp
        · intro _; rfl
      · exact h t (List.mem_cons_of_mem _ hmem)
    · rcases List.mem_cons.mp ht with rfl | hmem
      · exact h t (List.mem_cons_self _ _)
      · exact ih (fun u hu => h u (List.mem_cons_of_mem _ hu)) t hmem

theorem processEventTraces_inv (now : Int) (traces : List SubagentTrace)
    (e : NormalizedEvent) (h : ∀ t ∈ traces, traceInv t) :
    ∀ t ∈ processEventTraces now traces e, traceInv t := by
  unfold processEventTraces
  split
  · intro t ht
    rcases List.mem_append.mp ht with hmem | hmem
    · exact h t hmem
    · rw [List.mem_singleton] at hmem
      subst hmem
      simp [traceInv]
  · exact completeSubagent_inv now e.toolID e.content e.isError traces h
  · exact h

theorem foldl_processEventTraces_inv (evs : List (Int × NormalizedEvent)) :
    ∀ init : List SubagentTrace, (∀ t ∈ init, traceInv t) →
    ∀ t ∈ evs.foldl (fun trs p => processEventTraces p.1 trs p.2) init, traceInv t := by
  induction evs with
  | nil => intro init h t ht; exact h t ht
  | cons p evs ih =>
    intro init h
    rw [List.foldl_cons]
    exact ih _ (processEventTraces_inv p.1 init p.2 h)

/-- C6: for a matched tool_start/tool_end pair sharing an invocation id,
`completeSubagent` sets the trace's end time, sets duration = end − start,
stores the output truncated to 200 characters, and sets status to error
exactly when the end event's error flag is set (complete otherwise); a
tool_end matching no trace leaves the collection unchanged; and in every
trace reachable from the empty per-iteration state, end time is set iff the
status is complete or error. -/
theorem completeSubagent_correct :
    (∀ (now : Int) (toolID : String) (out : List Char) (isErr : Bool)
        (pre : List SubagentTrace) (t : SubagentTrace) (post : List SubagentTrace),
      (∀ u ∈ pre, u.id ≠ toolID) → t.id = toolID →
      completeSubagent now toolID out isErr (pre ++ t :: post) =
        pre ++ { t with endedAt := some now, duration := now - t.startedAt,
                        output := truncate out 200,
                        status := if isErr then SubagentStatus.error
                                  else SubagentStatus.complete } :: post) ∧
    (∀ out : List Char, (truncate out 200).length ≤ 200) ∧
    (∀ isErr : Bool,
      ((if isErr then SubagentStatus.error else SubagentStatus.complete) =
          SubagentStatus.error ↔ isErr = true)) ∧
    (∀ (now : Int) (toolID : String) (out : List Char) (isErr : Bool)
        (ts : List SubagentTrace),
      (∀ u ∈ ts, u.id ≠ toolID) →
      completeSubagent now toolID out isErr ts = ts) ∧
    (∀ (evs : List (Int × NormalizedEvent)) (t : SubagentTrace),
      t ∈ applyEvents evs →
      (t.endedAt.isSome = true ↔ (t.status = .complete ∨ t.status = .error))) := by
  refine ⟨?_, ?_, ?_, ?_, ?_⟩
  · intro now toolID out isErr pre t post hpre ht
    induction pre with
    | nil => simp [completeSubagent, ht]
    | cons p pre ih =>
      have hp : p.id ≠ toolID := hpre p (List.mem_cons_self p pre)
      rw [List.cons_append, completeSubagent, if_neg hp, List.cons_append]
      rw [ih (fun u hu => hpre u (List.mem_cons_of_mem p hu))]
  · intro out
    exact truncate_length_le out 200 (by omega)
  · intro isErr
    cases isErr <;> simp
  · intro now toolID out isErr ts h
    induction ts with
    | nil => rfl
    | cons a ts ih =>
      rw [completeSubagent, if_neg (h a (List.mem_cons_self a ts))]
      rw [ih (fun u hu => h u (List.mem_cons_of_mem a hu))]
  · intro evs t ht
    exact foldl_processEventTraces_inv evs [] (by simp) t ht

/-- Witness for C6: a concrete matched pair, a concrete unmatched tool_end,
and the invariant on the trace reached from one concrete tool_start. -/
theorem completeSubagent_correct_witness :
    (completeSubagent 7 "a" "done".data false
        [{ id := "a", type := "Bash", input := [], status := .running,
           output := [], startedAt := 2, endedAt := none, duration := 0 }] =
      [{ id := "a", type := "Bash", input := [], status := .complete,
         output := "done".data, startedAt := 2, endedAt := some 7, duration := 5 }]) ∧
    (completeSubagent 7 "a" "done".data false
        [{ id := "b", type := "Bash", input := [], status := .running,
           output := [], startedAt := 2, endedAt := none, duration := 0 }] =
      [{ id := "b", type := "Bash", input := [], status := .running,
         output := [], startedAt := 2, endedAt := none, duration := 0 }]) ∧
    (({ id := "a", type := "Bash", input := [], status := .running,
        output := [], startedAt := 5, endedAt := none,
        duration := 0 } : SubagentTrace).endedAt.isSome = true ↔
      (({ id := "a", type := "Bash", input := [], status := .running,
          output := [], startedAt := 5, endedAt := none,
          duration := 0 } : SubagentTrace).status = .complete ∨
        ({ id := "a", type := "Bash", input := [], status := .running,
           output := [], startedAt := 5, endedAt := none,
           duration := 0 } : SubagentTrace).status = .error)) := by
  refine ⟨?_, ?_, ?_⟩
  · have h := completeSubagent_correct.1 7 "a" "done".data false []
      { id := "a", type := "Bash", input := [], status := .running,
        output := [], startedAt := 2, endedAt := none, duration := 0 } []
      (by simp) rfl
    simpa using h
  · exact completeSubagent_correct.2.2.2.1 7 "a" "done".data false _
      (by intro u hu; rw [List.mem_singleton] at hu; subst hu; decide)
  · exact completeSubagent_correct.2.2.2.2
      [(5, { type := .toolStart, content := [], toolName := "Bash", toolID := "a",
             toolInput := none, isError := false, timestamp := 5 })] _
      (by decide)

/-- C7 counterexample: with a tool-input map whose only relevant field is a
101-character file_path, the extracted summary is the whole path — 101
characters, longer than the claimed 100-character bound. -/
theorem extractToolInputSummary_cex :
    100 < (extractToolInputSummary (some fun k =>
      if k = "file_path" then some (GoVal.vstr (List.replicate 101 'a'))
      else none)).length := by
  decide

/-- C7 (amended): the input summary is derived by fixed priority — the
"command" field if it holds a string, else "file_path", else "prompt", else
the empty string — and the command and prompt summaries are truncated to at
most 100 characters, while a file_path value is returned unmodified, without
truncation. -/
theorem extractToolInputSummary_priority :
    (extractToolInputSummary none = []) ∧
    (∀ (m : String → Option GoVal) (cmd : List Char),
      m "command" = some (GoVal.vstr cmd) →
      extractToolInputSummary (some m) = truncate cmd 100 ∧
        (truncate cmd 100).length ≤ 100) ∧
    (∀ (m : String → Option GoVal) (path : List Char),
      m "command" = none → m "file_path" = some (GoVal.vstr path) →
      extractToolInputSummary (some m) = path) ∧
    (∀ (m : String → Option GoVal) (p : List Char),
      m "command" = none → m "file_path" = none →
      m "prompt" = some (GoVal.vstr p) →
      extractToolInputSummary (some m) = truncate p 100 ∧
        (truncate p 100).length ≤ 100) ∧
    (∀ m : String → Option GoVal,
      m "command" = none → m "file_path" = none → m "prompt" = none →
      extractToolInputSummary (some m) = []) := by
  refine ⟨rfl, ?_, ?_, ?_, ?_⟩
  · intro m cmd h
    exact ⟨by simp [extractToolInputSummary, h],
      truncate_length_le cmd 100 (by omega)⟩
  · intro m path h1 h2
    simp [extractToolInputSummary, h1, h2]
  · intro m p h1 h2 h3
    exact ⟨by simp [extractToolInputSummary, h1, h2, h3],
      truncate_length_le p 100 (by omega)⟩
  · intro m h1 h2 h3
    simp [extractToolInputSummary, h1, h2, h3]

/-- Witness for C7: the priority equations applied to a concrete map holding
only a short file_path. -/
theorem extractToolInputSummary_priority_witness :
    extractToolInputSummary (some fun k =>
        if k = "file_path" then some (GoVal.vstr "main.go".data) else none) =
      "main.go".data := by
  exact extractToolInputSummary_priority.2.2.1
    (fun k => if k = "file_path" then some (GoVal.vstr "main.go".data) else none)
    "main.go".data (by decide) (by decide)

/-! ### Task selection lemmas and claim C4 -/

theorem aiTasks_eq_filter_map (lines : List (List Char)) :
    aiTasks lines = (lines.filter agentLine).map cleanTask := by
  induction lines with
  | nil => rfl
  | cons l ls ih =>
    rw [aiTasks] at ih
    rw [aiTasks, List.filterMap_cons]
    by_cases h : agentLine l = true
    · rw [if_pos (show (incompleteMatch l && containsBot l) = true from h),
        List.filter_cons_of_pos h, List.map_cons]
      exact congrArg (List.cons (removeAll '🤖' (taskOf l))) ih
    · rw [if_neg (show ¬(incompleteMatch l && containsBot l) = true from h),
        List.filter_cons_of_neg h]
      exact ih

theorem find?_eq_head_filter (lines : List (List Char)) :
    lines.find? agentLine = (lines.filter agentLine).head? := by
  induction lines with
  | nil => rfl
  | cons l ls ih =>
    by_cases h : agentLine l = true
    · rw [List.find?_cons_of_pos ls h, List.filter_cons_of_pos h, List.head?_cons]
    · rw [List.find?_cons_of_neg ls h, List.filter_cons_of_neg h, ih]

/-- C4: task selection returns the first incomplete, agent-flagged task in
document order; lines without the agent flag (human-only tasks included)
are skipped regardless of position and never block progress; an absent
PRD.md yields the synthesized bootstrap task; and when no agent-executable
incomplete task remains, `checkTasks` reports that the loop should end and
`runLoop` marks the session completed. -/
theorem checkTasks_correct :
    (checkTasks none = ⟨true, "Create PRD.md with task list".data, 0⟩) ∧
    (∀ (lines : List (List Char)) (l : List Char),
      lines.find? agentLine = some l →
      checkTasksLines lines =
        ⟨true, trimSpace (cleanTask l), (lines.filter agentLine).length⟩) ∧
    (∀ lines : List (List Char),
      lines.find? agentLine = none → checkTasksLines lines = ⟨false, [], 0⟩) ∧
    (∀ lines : List (List Char),
      checkTasksLines (lines.filter agentLine) = checkTasksLines lines) ∧
    (∀ (maxIterations : Nat) (prdAt : Nat → Option (List Char))
        (outs : Nat → List StdoutLine) (errs : Nat → List (List Char)),
      (checkTasks (prdAt 1)).shouldContinue = false →
      runLoop (maxIterations + 1) prdAt outs errs =
        { initialLoopState with iteration := 1, status := .completed,
                                lockHeld := false }) := by
  refine ⟨rfl, ?_, ?_, ?_, ?_⟩
  · intro lines l hfind
    rw [find?_eq_head_filter] at hfind
    unfold checkTasksLines
    rw [aiTasks_eq_filter_map]
    rcases hf : lines.filter agentLine with _ | ⟨x, xs⟩
    · rw [hf] at hfind; cases hfind
    · rw [hf] at hfind
      rw [List.head?_cons, Option.some.injEq] at hfind
      subst hfind
      simp
  · intro lines hfind
    rw [find?_eq_head_filter] at hfind
    unfold checkTasksLines
    rw [aiTasks_eq_filter_map]
    rcases hf : lines.filter agentLine with _ | ⟨x, xs⟩
    · rfl
    · rw [hf] at hfind; cases hfind
  · intro lines
    unfold checkTasksLines
    rw [aiTasks_eq_filter_map, aiTasks_eq_filter_map, List.filter_filter]
    have : (fun a => agentLine a && agentLine a) = agentLine := by
      funext a; cases h : agentLine a <;> simp [h]
    rw [this]
  · intro maxIterations prdAt outs errs h
    simp [runLoop, runLoopAux, loopIterate, initialLoopState, h]

/-- Witness for C4: selection on a concrete document where a human-only task
precedes the agent task, a concrete document with no agent task, and a run
whose first task check ends the loop with a completed session. -/
theorem checkTasks_correct_witness :
    (checkTasksLines
        ["- [ ] human reviews design".data, "- [ ] 🤖 fix bug".data,
         "- [ ] 🤖 other".data] =
      ⟨true, "fix bug".data, 2⟩) ∧
    (checkTasksLines ["- [ ] human reviews design".data, "- [x] 🤖 done".data] =
      ⟨false, [], 0⟩) ∧
    (runLoop 5 (fun _ => some "- [x] 🤖 done".data) (fun _ => []) (fun _ => []) =
      { initialLoopState with iteration := 1, status := .completed,
                              lockHeld := false }) := by
  refine ⟨?_, ?_, ?_⟩
  · have h := checkTasks_correct.2.1
      ["- [ ] human reviews design".data, "- [ ] 🤖 fix bug".data,
       "- [ ] 🤖 other".data] "- [ ] 🤖 fix bug".data (by decide)
    rw [h]
    decide
  · exact checkTasks_correct.2.2.1
      ["- [ ] human reviews design".data, "- [x] 🤖 done".data] (by decide)
  · exact checkTasks_correct.2.2.2.2 4 (fun _ => some "- [x] 🤖 done".data)
      (fun _ => []) (fun _ => []) (by decide)

/-! ### Loop escalation lemmas and claim C3 -/

theorem runIterationStatus_cases (outs : List StdoutLine) (errs : List (List Char)) :
    runIterationStatus outs errs = .complete ∨
      runIterationStatus outs errs = .blocked ∨
      runIterationStatus outs errs = .failed := by
  unfold runIterationStatus classifyIteration
  by_cases h1 : (scanStdout outs).completionDetected = true
  · simp [h1]
  · by_cases h2 : (scanStdout outs).blockedDetected = true <;> simp [h1, h2]

theorem leadFails_cons_failed (l : List IterationStatus) :
    leadFails (.failed :: l) = leadFails l + 1 := by
  simp [leadFails]

theorem leadFails_succ (h : List IterationStatus) (n : Nat)
    (hl : leadFails h = n + 1) :
    ∃ h', h = .failed :: h' ∧ leadFails h' = n := by
  cases h with
  | nil => simp [leadFails] at hl
  | cons r rest =>
    rw [leadFails] at hl
    by_cases hr : r = .failed
    · rw [if_pos hr] at hl
      exact ⟨rest, by rw [hr], by omega⟩
    · rw [if_neg hr] at hl
      exact absurd hl (by omega)

theorem NoTriple_cons_of_ne (r : IterationStatus) (h : List IterationStatus)
    (hr : r ≠ .failed) (hh : NoTriple h) : NoTriple (r :: h) := by
  intro t u heq
  cases t with
  | nil =>
    rw [List.nil_append] at heq
    injection heq with h1 h2
    exact hr h1
  | cons x t =>
    rw [List.cons_append] at heq
    injection heq with h1 h2
    exact hh t u h2

theorem NoTriple_cons_failed (h : List IterationStatus) (hh : NoTriple h)
    (hl : leadFails h ≤ 1) : NoTriple (.failed :: h) := by
  intro t u heq
  cases t with
  | nil =>
    rw [List.nil_append] at heq
    injection heq with h1 h2
    rw [h2, leadFails_cons_failed, leadFails_cons_failed] at hl
    omega
  | cons x t =>
    rw [List.cons_append] at heq
    injection heq with h1 h2
    exact hh t u h2

theorem NoTriple_tail (r : IterationStatus) (h : List IterationStatus)
    (hnt : NoTriple (r :: h)) : NoTriple h := by
  intro t u heq
  exact hnt (r :: t) u (by rw [heq, List.cons_append])

theorem NoTriple_nil : NoTriple [] := by
  intro t u h
  have := congrArg List.length h
  simp [List.length_append] at this
  omega

theorem triple_head_unique (rest t u : List IterationStatus)
    (hl : leadFails rest = 0) (hnt : NoTriple rest)
    (heq : IterationStatus.failed :: .failed :: .failed :: rest =
      t ++ IterationStatus.failed :: .failed :: .failed :: u) :
    t = [] := by
  match t with
  | [] => rfl
  | [x] =>
    rw [List.cons_append, List.nil_append] at heq
    injection heq with e1 heq
    injection heq with e2 heq
    injection heq with e3 heq
    rw [heq, leadFails_cons_failed] at hl
    omega
  | [x, y] =>
    rw [List.cons_append, List.cons_append, List.nil_append] at heq
    injection heq with e1 heq
    injection heq with e2 heq
    injection heq with e3 heq
    rw [heq, leadFails_cons_failed] at hl
    omega
  | x :: y :: z :: t' =>
    rw [List.cons_append, List.cons_append, List.cons_append] at heq
    injection heq with e1 heq
    injection heq with e2 heq
    injection heq with e3 heq
    exact absurd heq (hnt t' u)

theorem runLoopAux_streak (prdAt : Nat → Option (List Char))
    (outs : Nat → List StdoutLine) (errs : Nat → List (List Char)) :
    ∀ (fuel : Nat) (st : LoopState),
    st.consecutiveFailures = leadFails st.history →
    leadFails st.history ≤ 2 →
    NoTriple st.history →
    ∀ t u, (runLoopAux prdAt outs errs fuel st).history =
        t ++ IterationStatus.failed :: .failed :: .failed :: u →
    (runLoopAux prdAt outs errs fuel st).status = .failed ∧
      (runLoopAux prdAt outs errs fuel st).lockHeld = false ∧ t = [] := by
  intro fuel
  induction fuel with
  | zero =>
    intro st hcf hle hnt t u heq
    exact absurd heq (hnt t u)
  | succ fuel ih =>
    intro st hcf hle hnt t u heq
    by_cases hc : (checkTasks (prdAt (st.iteration + 1))).shouldContinue = true
    · rcases runIterationStatus_cases (outs (st.iteration + 1)) (errs (st.iteration + 1))
        with hr | hr | hr
      · have hred : runLoopAux prdAt outs errs (fuel + 1) st =
            runLoopAux prdAt outs errs fuel
              { st with iteration := st.iteration + 1,
                        currentTask := (checkTasks (prdAt (st.iteration + 1))).currentTask,
                        history := .complete :: st.history,
                        tasksCompleted := st.tasksCompleted + 1,
                        consecutiveFailures := 0 } := by
          simp [runLoopAux, loopIterate, hc, hr]
        rw [hred] at heq ⊢
        refine ih _ ?_ ?_ ?_ t u heq
        · simp [leadFails]
        · simp [leadFails]
        · exact NoTriple_cons_of_ne _ _ (by decide) hnt
      · have hred : runLoopAux prdAt outs errs (fuel + 1) st =
            runLoopAux prdAt outs errs fuel
              { st with iteration := st.iteration + 1,
                        currentTask := (checkTasks (prdAt (st.iteration + 1))).currentTask,
                        history := .blocked :: st.history,
                        consecutiveFailures := 0 } := by
          simp [runLoopAux, loopIterate, hc, hr]
        rw [hred] at heq ⊢
        refine ih _ ?_ ?_ ?_ t u heq
        · simp [leadFails]
        · simp [leadFails]
        · exact NoTriple_cons_of_ne _ _ (by decide) hnt
      · by_cases h3 : st.consecutiveFailures + 1 ≥ 3
        · have hred : runLoopAux prdAt outs errs (fuel + 1) st =
              { st with iteration := st.iteration + 1,
                        currentTask := (checkTasks (prdAt (st.iteration + 1))).currentTask,
                        history := .failed :: st.history,
                        consecutiveFailures := st.consecutiveFailures + 1,
                        status := .failed, lockHeld := false } := by
            simp [runLoopAux, loopIterate, hc, hr, h3]
          rw [hred] at heq ⊢
          have h2 : leadFails st.history = 2 := by omega
          obtain ⟨h1, hh1, hl1⟩ := leadFails_succ st.history 1 (by omega)
          obtain ⟨h0, hh0, hl0⟩ := leadFails_succ h1 0 (by omega)
          have hnt1 : NoTriple h1 := NoTriple_tail _ _ (hh1 ▸ hnt)
          have hnt0 : NoTriple h0 := NoTriple_tail _ _ (hh0 ▸ hnt1)
          have heq' : IterationStatus.failed :: .failed :: .failed :: h0 =
              t ++ IterationStatus.failed :: .failed :: .failed :: u := by
            have : st.history = .failed :: .failed :: h0 := by rw [hh1, hh0]
            rw [← this]
            exact heq
          exact ⟨rfl, rfl, triple_head_unique h0 t u hl0 hnt0 heq'⟩
        · have hred : runLoopAux prdAt outs errs (fuel + 1) st =
              runLoopAux prdAt outs errs fuel
                { st with iteration := st.iteration + 1,
                          currentTask := (checkTasks (prdAt (st.iteration + 1))).currentTask,
                          history := .failed :: st.history,
                          consecutiveFailures := st.consecutiveFailures + 1 } := by
            simp [runLoopAux, loopIterate, hc, hr, h3]
          rw [hred] at heq ⊢
          refine ih _ ?_ ?_ ?_ t u heq
          · simp only [leadFails_cons_failed]
            omega
          · simp only [leadFails_cons_failed]
            omega
          · exact NoTriple_cons_failed st.history hnt (by omega)
    · have hred : runLoopAux prdAt outs errs (fuel + 1) st =
          { st with iteration := st.iteration + 1, status := .completed,
                    lockHeld := false } := by
        simp [runLoopAux, loopIterate, hc]
      rw [hred] at heq ⊢
      exact absurd heq (hnt t u)

/-- C3: in every run of the loop, three consecutive iterations classified
failed (no intervening complete or blocked classification) set the session
status to failed, release the lock, and abort the loop, so that the streak
is the most recent part of the run and no fourth iteration starts after it;
and any complete or blocked classification resets the consecutive-failure
counter to zero.  (The history field records the classification of every
`runIteration` call, most recent first, so `t = []` says nothing ran after
the streak.) -/
theorem runLoop_failure_streak :
    (∀ (maxIterations : Nat) (prdAt : Nat → Option (List Char))
        (outs : Nat → List StdoutLine) (errs : Nat → List (List Char))
        (t u : List IterationStatus),
      (runLoop maxIterations prdAt outs errs).history =
          t ++ IterationStatus.failed :: .failed :: .failed :: u →
      (runLoop maxIterations prdAt outs errs).status = .failed ∧
        (runLoop maxIterations prdAt outs errs).lockHeld = false ∧ t = []) ∧
    (∀ (prdAt : Nat → Option (List Char)) (outs : Nat → List StdoutLine)
        (errs : Nat → List (List Char)) (st : LoopState),
      (checkTasks (prdAt (st.iteration + 1))).shouldContinue = true →
      (runIterationStatus (outs (st.iteration + 1)) (errs (st.iteration + 1)) =
          .complete ∨
        runIterationStatus (outs (st.iteration + 1)) (errs (st.iteration + 1)) =
          .blocked) →
      (loopIterate prdAt outs errs st).1.consecutiveFailures = 0) := by
  constructor
  · intro maxIterations prdAt outs errs t u heq
    exact runLoopAux_streak prdAt outs errs maxIterations initialLoopState rfl
      (by decide) NoTriple_nil t u heq
  · intro prdAt outs errs st hc hr
    rcases hr with hr | hr
    · simp [loopIterate, hc, hr]
    · simp [loopIterate, hc, hr]

/-- Witness for C3: a run where every iteration fails stops with session
status failed, the lock released, and exactly three iterations recorded;
and a first iteration classified complete leaves the counter at zero. -/
theorem runLoop_failure_streak_witness :
    ((runLoop 10 (fun _ => none) (fun _ => []) (fun _ => [])).status = .failed ∧
      (runLoop 10 (fun _ => none) (fun _ => []) (fun _ => [])).lockHeld = false ∧
      ([] : List IterationStatus) = []) ∧
    (loopIterate (fun _ => none)
        (fun _ => [StdoutLine.raw "<promise>COMPLETE</promise>".data])
        (fun _ => []) initialLoopState).1.consecutiveFailures = 0 := by
  constructor
  · exact runLoop_failure_streak.1 10 (fun _ => none) (fun _ => []) (fun _ => [])
      [] [] (by decide)
  · exact runLoop_failure_streak.2 (fun _ => none)
      (fun _ => [StdoutLine.raw "<promise>COMPLETE</promise>".data])
      (fun _ => []) initialLoopState (by decide) (Or.inl (by decide))

/-! ### Claim C2: lock handling at startup -/

/-- C2 (code bug): a lock record naming a live process does NOT make
`initSession` fail.  Because `process.Signal(os.Signal(nil))` always returns
the "unsupported signal type" error on Unix (the nil interface fails the
`syscall.Signal` type assertion inside `os.(*Process).Signal`), the
already-running refusal at orchestrator.go line 191 is unreachable: even
with every process alive, a lock naming pid 42 is treated as stale, removed,
and overwritten, and a fresh session is written — where the claim (and the
source's own comment "Use signal 0 to check") require an already-running
error with zero file mutation.  The dead-owner half of the claim does hold:
with no process alive the same fall-through occurs, which is the behaviour
the claim expects there. -/
theorem initSession_live_lock_not_refused :
    (initSession (fun _ => true) 99 "fresh-session" "/work" 5
        { lockFile := some ⟨42, "old-session", 1⟩, sessionFile := none } =
      (none,
        { lockFile := some ⟨99, "fresh-session", 5⟩,
          sessionFile := some
            { id := "fresh-session", startedAt := 5, updatedAt := 5,
              status := .running, iteration := 0, tasksCompleted := 0,
              currentTask := [], workingDir := "/work", pid := 99 } })) ∧
    (initSession (fun _ => false) 99 "fresh-session" "/work" 5
        { lockFile := some ⟨42, "old-session", 1⟩, sessionFile := none } =
      (none,
        { lockFile := some ⟨99, "fresh-session", 5⟩,
          sessionFile := some
            { id := "fresh-session", startedAt := 5, updatedAt := 5,
              status := .running, iteration := 0, tasksCompleted := 0,
              currentTask := [], workingDir := "/work", pid := 99 } })) :=
  ⟨rfl, rfl⟩

end RalphSetup
